import Mathlib

/-!
Verification of the clawdex-mobile rust-bridge core
(src/services/rust-bridge/src/main.rs) against its specification.

The Rust source is shallowly embedded: pure functions become Lean
functions, the stateful client hub / agent bridge / rollout tailer become
explicit state-passing functions, `u64` counters become `Nat` with an
explicit `% 2^64` where wrap-around matters, and fallible operations
return `Option` / `Except`.  `serde_json::Value` is modelled by the
inductive `Json` below (JSON numbers are restricted to integer numerals,
which is all the bridge's own code paths construct or inspect).
-/

set_option maxRecDepth 4000

namespace Bridge

/-- Model of `serde_json::Value`.  Objects are association lists; the code
only ever reads objects through `Map::get`, so only key lookup matters. -/
inductive Json where
  | null
  | bool (b : Bool)
  | num (n : Int)
  | str (s : String)
  | arr (items : List Json)
  | obj (fields : List (String × Json))

/-- Model of `serde_json::Map::get`: first binding of the key wins. -/
def jget (fields : List (String × Json)) (key : String) : Option Json :=
  match fields with
  | [] => none
  | (k, v) :: rest => if k = key then some v else jget rest key

/-- Model of `Value::as_str`. -/
def Json.asStr : Json → Option String
  | .str s => some s
  | _ => none

/-- Model of `Value::as_object` (as the underlying association list). -/
def Json.asObj : Json → Option (List (String × Json))
  | .obj fields => some fields
  | _ => none

/-- Model of `Value::as_array`. -/
def Json.asArr : Json → Option (List Json)
  | .arr items => some items
  | _ => none

/-- Model of `read_string` (main.rs): `value.and_then(Value::as_str)`. -/
def read_string (value : Option Json) : Option String :=
  value.bind Json.asStr

/-- `u64` arithmetic is performed modulo `2 ^ 64`. -/
def U64_MOD : Nat := 2 ^ 64

/-- Model of `constant_time_eq` (main.rs).  Rust `&str` values are
represented by their UTF-8 byte sequences (`str::as_bytes`), so `List Nat`
holds the bytes.  The loop accumulates the xor of every byte pair (with
out-of-range reads defaulting to `0`) or-ed onto the xor of the lengths. -/
def constant_time_eq (left right : List Nat) : Bool :=
  let max_len := max left.length right.length
  let diff := (List.range max_len).foldl
    (fun diff index => diff ||| ((left.getD index 0) ^^^ (right.getD index 0)))
    (left.length ^^^ right.length)
  diff == 0

theorem nat_lor_eq_zero_iff (a b : Nat) : a ||| b = 0 ↔ a = 0 ∧ b = 0 := by
  constructor
  · intro h
    have ha : a = 0 := by
      apply Nat.eq_of_testBit_eq
      intro i
      have hbit := congrArg (fun n => Nat.testBit n i) h
      simp only [Nat.testBit_lor, Nat.zero_testBit, Bool.or_eq_false_iff] at hbit
      simpa [Nat.zero_testBit] using hbit.1
    have hb : b = 0 := by
      apply Nat.eq_of_testBit_eq
      intro i
      have hbit := congrArg (fun n => Nat.testBit n i) h
      simp only [Nat.testBit_lor, Nat.zero_testBit, Bool.or_eq_false_iff] at hbit
      simpa [Nat.zero_testBit] using hbit.2
    exact ⟨ha, hb⟩
  · rintro ⟨rfl, rfl⟩
    rfl

theorem foldl_lor_eq_zero (f : Nat → Nat) (l : List Nat) (init : Nat) :
    (l.foldl (fun d x => d ||| f x) init = 0) ↔ (init = 0 ∧ ∀ x ∈ l, f x = 0) := by
  induction l generalizing init with
  | nil => simp
  | cons a rest ih =>
    simp only [List.foldl_cons, ih, nat_lor_eq_zero_iff, List.mem_cons]
    constructor
    · rintro ⟨⟨h1, h2⟩, h3⟩
      exact ⟨h1, fun x hx => hx.elim (fun he => he ▸ h2) (h3 x)⟩
    · rintro ⟨h1, h2⟩
      exact ⟨⟨h1, h2 a (.inl rfl)⟩, fun x hx => h2 x (.inr hx)⟩

/-- C10: `constant_time_eq(a, b)` returns true exactly when the two byte
strings are equal, so the bearer-token comparison accepts exactly the
configured token. -/
theorem constant_time_eq_iff_eq (left right : List Nat) :
    constant_time_eq left right = true ↔ left = right := by
  unfold constant_time_eq
  simp only [beq_iff_eq]
  rw [foldl_lor_eq_zero (fun index => (left.getD index 0) ^^^ (right.getD index 0))]
  constructor
  · rintro ⟨hlen, hidx⟩
    have hlen' : left.length = right.length := by
      have := Nat.xor_eq_zero.mp hlen
      exact this
    apply List.ext_getElem hlen'
    intro i hi hi'
    have hmem : i ∈ List.range (max left.length right.length) :=
      List.mem_range.mpr (lt_of_lt_of_le hi (le_max_left _ _))
    have := Nat.xor_eq_zero.mp (hidx i hmem)
    have hl : left.getD i 0 = left[i] := List.getD_eq_getElem left 0 hi
    have hr : right.getD i 0 = right[i] := List.getD_eq_getElem right 0 hi'
    rw [hl, hr] at this
    exact this
  · rintro rfl
    refine ⟨Nat.xor_self _, fun x _ => Nat.xor_self _⟩

/-! ## Client hub: event-id allocation and the bounded replay log

`ClientHub` (main.rs) also owns the client table; `broadcast_json` only
writes to client queues and never touches `next_event_id` or the replay
log, so the client table is omitted from this state model, which covers
exactly the id-allocation and replay behaviour. -/

/-- Model of `ReplayableNotification` (main.rs). -/
structure ReplayableNotification where
  event_id : Nat
  payload : Json

/-- The hub state relevant to event ids and replay. -/
structure ClientHub where
  next_event_id : Nat
  replay_capacity : Nat
  notification_replay : List ReplayableNotification

/-- Model of `ClientHub::with_replay_capacity`: counter starts at 1,
replay log starts empty. -/
def ClientHub.with_replay_capacity (replay_capacity : Nat) : ClientHub :=
  { next_event_id := 1, replay_capacity := replay_capacity, notification_replay := [] }

/-- The envelope built by `broadcast_notification`'s `json!` block. -/
def envelope (method : String) (event_id : Nat) (params : Json) : Json :=
  .obj [("method", .str method), ("eventId", .num event_id), ("params", params)]

/-- `AtomicU64::fetch_add(1)`: returns the old value and stores the
wrapped successor. -/
def ClientHub.alloc_event_id (hub : ClientHub) : ClientHub × Nat :=
  ({ hub with next_event_id := (hub.next_event_id + 1) % U64_MOD }, hub.next_event_id)

/-- The `while replay.len() > self.replay_capacity { replay.pop_front(); }`
loop of `push_replay`. -/
def evictWhileOver (capacity : Nat) : List ReplayableNotification → List ReplayableNotification
  | [] => []
  | e :: rest =>
    if (e :: rest).length > capacity then evictWhileOver capacity rest else e :: rest

/-- Model of `ClientHub::push_replay`: no-op at capacity 0, otherwise
append and evict from the front while over capacity. -/
def ClientHub.push_replay (hub : ClientHub) (event_id : Nat) (payload : Json) : ClientHub :=
  if hub.replay_capacity = 0 then hub
  else
    let replay :=
      evictWhileOver hub.replay_capacity (hub.notification_replay ++ [⟨event_id, payload⟩])
    { hub with notification_replay := replay }

/-- Model of `ClientHub::broadcast_notification`, returning the updated
hub together with the allocated event id.  (`broadcast_json` only fans the
payload out to client queues and does not change this state.) -/
def ClientHub.broadcast_notification (hub : ClientHub) (method : String) (params : Json) :
    ClientHub × Nat :=
  let (hub, event_id) := hub.alloc_event_id
  let payload := envelope method event_id params
  (hub.push_replay event_id payload, event_id)

/-- The loop body of `ClientHub::replay_since`: `count` is the number of
events already collected (`events.len()` in the source). -/
def replayLoop (after limit : Nat) : List ReplayableNotification → Nat → List Json × Bool
  | [], _ => ([], false)
  | e :: rest, count =>
    if e.event_id ≤ after then replayLoop after limit rest count
    else if limit ≤ count then ([], true)
    else
      let tail := replayLoop after limit rest (count + 1)
      (e.payload :: tail.1, tail.2)

/-- Model of `ClientHub::replay_since` (a `None` cursor is `unwrap_or(0)`). -/
def ClientHub.replay_since (hub : ClientHub) (after_event_id : Option Nat) (limit : Nat) :
    List Json × Bool :=
  replayLoop (after_event_id.getD 0) limit hub.notification_replay 0

/-- Model of `ClientHub::earliest_event_id`. -/
def ClientHub.earliest_event_id (hub : ClientHub) : Option Nat :=
  hub.notification_replay.head?.map (·.event_id)

/-- Model of `ClientHub::latest_event_id`. -/
def ClientHub.latest_event_id (hub : ClientHub) : Nat :=
  hub.next_event_id - 1

/-- A run of the program, restricted to the hub: a sequence of
`broadcast_notification` calls applied in order. -/
def runBroadcasts (hub : ClientHub) : List (String × Json) → ClientHub
  | [] => hub
  | (method, params) :: rest =>
    runBroadcasts (hub.broadcast_notification method params).1 rest

/-- The event ids stamped by the successive broadcasts of a run. -/
def broadcastEventIds (hub : ClientHub) : List (String × Json) → List Nat
  | [] => []
  | (method, params) :: rest =>
    let step := hub.broadcast_notification method params
    step.2 :: broadcastEventIds step.1 rest

/-- The full (unbounded) sequence of envelopes a run appends to the
replay log, reconstructed from the allocation counter alone. -/
def broadcastLog (next : Nat) : List (String × Json) → List ReplayableNotification
  | [] => []
  | (method, params) :: rest =>
    ⟨next, envelope method next params⟩ :: broadcastLog ((next + 1) % U64_MOD) rest

theorem broadcast_next_event_id (hub : ClientHub) (method : String) (params : Json) :
    (hub.broadcast_notification method params).1.next_event_id =
      (hub.next_event_id + 1) % U64_MOD ∧
    (hub.broadcast_notification method params).2 = hub.next_event_id := by
  simp only [ClientHub.broadcast_notification, ClientHub.alloc_event_id, ClientHub.push_replay]
  split <;> simp

theorem broadcastEventIds_range (ms : List (String × Json)) :
    ∀ hub : ClientHub, hub.next_event_id + ms.length ≤ U64_MOD →
      broadcastEventIds hub ms = List.range' hub.next_event_id ms.length := by
  induction ms with
  | nil => intro hub _; rfl
  | cons m rest ih =>
    intro hub hbound
    obtain ⟨method, params⟩ := m
    have hbound' : hub.next_event_id + (rest.length + 1) ≤ U64_MOD := by
      simpa using hbound
    simp only [broadcastEventIds, List.length_cons, List.range']
    have hnext := broadcast_next_event_id hub method params
    rw [hnext.2]
    refine congrArg (hub.next_event_id :: ·) ?_
    rcases Nat.lt_or_ge (hub.next_event_id + 1) U64_MOD with hlt | hge
    · have hmod : (hub.next_event_id + 1) % U64_MOD = hub.next_event_id + 1 :=
        Nat.mod_eq_of_lt hlt
      rw [ih _ (by rw [hnext.1, hmod]; omega), hnext.1, hmod]
    · have hrest : rest.length = 0 := by omega
      rw [List.length_eq_zero.mp hrest]
      rfl

theorem chain'_lt_range' (s n : Nat) : List.Chain' (· < ·) (List.range' s n) := by
  induction n generalizing s with
  | zero => simp
  | succ k ih =>
    rw [List.range'_succ]
    refine List.chain'_cons'.mpr ⟨?_, ih (s + 1)⟩
    intro b hb
    cases k with
    | zero => simp at hb
    | succ k' =>
      rw [List.range'_succ] at hb
      simp only [List.head?_cons, Option.mem_def, Option.some.injEq] at hb
      omega

/-- C1: in any run of at most `2 ^ 64 - 1` broadcasts, the event ids
stamped by `broadcast_notification` are exactly `1, 2, ..., n`: the n-th
broadcast carries event id n, so the sequence is strictly increasing,
starts at 1 and has no gaps. -/
theorem broadcast_event_ids_one_to_n (capacity : Nat) (ms : List (String × Json))
    (hlen : ms.length < U64_MOD) :
    broadcastEventIds (ClientHub.with_replay_capacity capacity) ms =
      List.range' 1 ms.length ∧
    List.Chain' (· < ·) (broadcastEventIds (ClientHub.with_replay_capacity capacity) ms) := by
  have hrange := broadcastEventIds_range ms (ClientHub.with_replay_capacity capacity)
    (by simp only [ClientHub.with_replay_capacity]; omega)
  refine ⟨hrange, ?_⟩
  rw [hrange]
  exact chain'_lt_range' 1 ms.length

/-- Witness for C1 at a concrete three-broadcast run. -/
theorem broadcast_event_ids_one_to_n_witness :
    ([("turn/started", Json.null), ("turn/completed", Json.null),
        ("bridge/ping", Json.null)] : List (String × Json)).length < U64_MOD ∧
    broadcastEventIds (ClientHub.with_replay_capacity 2000)
        [("turn/started", Json.null), ("turn/completed", Json.null),
          ("bridge/ping", Json.null)] = List.range' 1 3 :=
  ⟨by norm_num [U64_MOD],
    (broadcast_event_ids_one_to_n 2000
      [("turn/started", Json.null), ("turn/completed", Json.null),
        ("bridge/ping", Json.null)] (by norm_num [U64_MOD])).1⟩

/-- The suffix of the `n` most recent elements of a list. -/
def lastN (n : Nat) (l : List α) : List α :=
  (l.reverse.take n).reverse

theorem lastN_length (n : Nat) (l : List α) : (lastN n l).length = min n l.length := by
  simp [lastN]

theorem lastN_of_length_le (n : Nat) (l : List α) (h : l.length ≤ n) : lastN n l = l := by
  rw [lastN, List.take_of_length_le (by simpa using h), List.reverse_reverse]

theorem lastN_cons_of_lt (n : Nat) (e : α) (l : List α) (h : n ≤ l.length) :
    lastN n (e :: l) = lastN n l := by
  simp only [lastN, List.reverse_cons]
  rw [List.take_append_of_le_length (by simpa using h)]

theorem evictWhileOver_eq_lastN (capacity : Nat) (l : List ReplayableNotification) :
    evictWhileOver capacity l = lastN capacity l := by
  induction l with
  | nil => simp [evictWhileOver, lastN]
  | cons e rest ih =>
    rw [evictWhileOver]
    split
    · next hlt =>
      rw [ih, lastN_cons_of_lt]
      simp only [List.length_cons] at hlt
      omega
    · next hge =>
      rw [lastN_of_length_le]
      omega

theorem lastN_append_lastN (n : Nat) (l xs : List α) :
    lastN n (lastN n l ++ xs) = lastN n (l ++ xs) := by
  simp only [lastN, List.reverse_append, List.reverse_reverse]
  rw [List.take_append_eq_append_take, List.take_append_eq_append_take, List.take_take,
    min_eq_left (by omega)]

theorem runBroadcasts_replay (ms : List (String × Json)) :
    ∀ hub : ClientHub, hub.notification_replay.length ≤ hub.replay_capacity →
      (runBroadcasts hub ms).notification_replay =
        lastN hub.replay_capacity
          (hub.notification_replay ++ broadcastLog hub.next_event_id ms) ∧
      (runBroadcasts hub ms).replay_capacity = hub.replay_capacity := by
  induction ms with
  | nil =>
    intro hub hlen
    simp only [runBroadcasts, broadcastLog, List.append_nil]
    exact ⟨(lastN_of_length_le _ _ hlen).symm, trivial⟩
  | cons m rest ih =>
    rintro ⟨nid, cap, replay⟩ hlen
    obtain ⟨method, params⟩ := m
    replace hlen : replay.length ≤ cap := hlen
    have hstep : ((⟨nid, cap, replay⟩ : ClientHub).broadcast_notification method params).1 =
        ⟨(nid + 1) % U64_MOD, cap,
          lastN cap (replay ++ [⟨nid, envelope method nid params⟩])⟩ := by
      simp only [ClientHub.broadcast_notification, ClientHub.alloc_event_id,
        ClientHub.push_replay, evictWhileOver_eq_lastN]
      split
      · next h0 =>
        have hnil : replay = [] := List.length_eq_zero.mp (by omega)
        subst hnil
        subst h0
        simp [lastN]
      · rfl
    simp only [runBroadcasts, broadcastLog, hstep]
    have hlen1 : (lastN cap (replay ++ [⟨nid, envelope method nid params⟩])).length ≤ cap := by
      rw [lastN_length]; omega
    have hih := ih ⟨(nid + 1) % U64_MOD, cap,
      lastN cap (replay ++ [⟨nid, envelope method nid params⟩])⟩ hlen1
    refine ⟨?_, hih.2⟩
    rw [hih.1, lastN_append_lastN, List.append_assoc]
    rfl

/-- C3: after any run, the replay log is exactly the `R` most recent of
all appended envelopes (so oldest entries are evicted first), its length
never exceeds the configured capacity `R`, and with `R = 0` nothing is
stored and every `replay_since` query answers `([], false)`. -/
theorem replay_log_bounded (capacity : Nat) (ms : List (String × Json)) :
    (runBroadcasts (ClientHub.with_replay_capacity capacity) ms).notification_replay =
      lastN capacity (broadcastLog 1 ms) ∧
    (runBroadcasts (ClientHub.with_replay_capacity capacity) ms).notification_replay.length
      ≤ capacity ∧
    (capacity = 0 → ∀ (c : Option Nat) (limit : Nat),
      (runBroadcasts (ClientHub.with_replay_capacity capacity) ms).replay_since c limit
        = ([], false)) := by
  have h := runBroadcasts_replay ms (ClientHub.with_replay_capacity capacity)
    (by simp [ClientHub.with_replay_capacity])
  have hmain :
      (runBroadcasts (ClientHub.with_replay_capacity capacity) ms).notification_replay =
        lastN capacity (broadcastLog 1 ms) := by
    simpa [ClientHub.with_replay_capacity] using h.1
  refine ⟨hmain, ?_, ?_⟩
  · rw [hmain, lastN_length]
    omega
  · intro hzero c limit
    have hempty :
        (runBroadcasts (ClientHub.with_replay_capacity capacity) ms).notification_replay
          = [] := by
      rw [hmain, hzero]
      simp [lastN]
    simp [ClientHub.replay_since, hempty, replayLoop]

/-- Witness for C3's zero-capacity branch at a concrete run. -/
theorem replay_log_bounded_witness :
    (runBroadcasts (ClientHub.with_replay_capacity 0)
        [("event/1", Json.null), ("event/2", Json.null)]).replay_since (some 0) 10
      = ([], false) :=
  (replay_log_bounded 0 [("event/1", Json.null), ("event/2", Json.null)]).2.2 rfl (some 0) 10

theorem replayLoop_spec (after limit : Nat) (entries : List ReplayableNotification) :
    ∀ count, count ≤ limit →
      replayLoop after limit entries count =
        (((entries.filter (fun e => after < e.event_id)).take (limit - count)).map
            (·.payload),
          decide
            ((limit - count) <
              (entries.filter (fun e => after < e.event_id)).length)) := by
  induction entries with
  | nil => intro count _; simp [replayLoop]
  | cons e rest ih =>
    intro count hcount
    rw [replayLoop]
    rcases Nat.lt_or_ge after e.event_id with hkeep | hskip
    · rw [if_neg (by omega)]
      have hfilter : (e :: rest).filter (fun e => after < e.event_id) =
          e :: rest.filter (fun e => after < e.event_id) := by
        simp [List.filter_cons, hkeep]
      rcases Nat.lt_or_ge count limit with hlt | hge
      · rw [if_neg (by omega), ih (count + 1) (by omega), hfilter]
        have htake : limit - count = (limit - (count + 1)) + 1 := by omega
        simp only [htake, List.take_succ_cons, List.map_cons, List.length_cons,
          Prod.mk.injEq]
        refine ⟨trivial, ?_⟩
        simp only [decide_eq_decide]
        omega
      · have hcnt : count = limit := by omega
        rw [if_pos (by omega), hfilter]
        have hz : limit - count = 0 := by omega
        simp [hz]
    · rw [if_pos (by omega)]
      have hnkeep : ¬ after < e.event_id := by omega
      have hfilter : (e :: rest).filter (fun e => after < e.event_id) =
          rest.filter (fun e => after < e.event_id) := by
        simp [List.filter_cons, hnkeep]
      rw [hfilter]
      exact ih count hcount

theorem broadcastLog_event_ids (ms : List (String × Json)) :
    ∀ next, next + ms.length ≤ U64_MOD →
      (broadcastLog next ms).map (·.event_id) = List.range' next ms.length := by
  induction ms with
  | nil => intro next _; rfl
  | cons m rest ih =>
    intro next hbound
    obtain ⟨method, params⟩ := m
    simp only [broadcastLog, List.map_cons, List.length_cons, List.range']
    refine congrArg (next :: ·) ?_
    rcases Nat.lt_or_ge (next + 1) U64_MOD with hlt | hge
    · rw [Nat.mod_eq_of_lt hlt, ih (next + 1) (by simp at hbound; omega)]
    · have hrest : rest.length = 0 := by simp at hbound; omega
      rw [List.length_eq_zero.mp hrest]
      rfl

/-- C2: for every run, cursor and limit, `replay_since` returns exactly
the stored envelopes with event id greater than the cursor (an absent
cursor acts as 0), in increasing event-id order, truncated to at most
`limit` entries, with `hasMore` true exactly when at least one qualifying
envelope was cut off by the limit. -/
theorem replay_since_exact (capacity : Nat) (ms : List (String × Json)) (c : Option Nat)
    (limit : Nat) (hlen : ms.length < U64_MOD) :
    (runBroadcasts (ClientHub.with_replay_capacity capacity) ms).replay_since c limit =
      ((((runBroadcasts (ClientHub.with_replay_capacity capacity)
            ms).notification_replay.filter
          (fun e => c.getD 0 < e.event_id)).take limit).map (·.payload),
        decide (limit <
          ((runBroadcasts (ClientHub.with_replay_capacity capacity)
              ms).notification_replay.filter
            (fun e => c.getD 0 < e.event_id)).length)) ∧
    List.Chain' (· < ·)
      (((runBroadcasts (ClientHub.with_replay_capacity capacity)
          ms).notification_replay.filter
        (fun e => c.getD 0 < e.event_id)).map (·.event_id)) := by
  constructor
  · have h := replayLoop_spec (c.getD 0) limit
      (runBroadcasts (ClientHub.with_replay_capacity capacity) ms).notification_replay 0
      (by omega)
    simpa [ClientHub.replay_since] using h
  · have hreplay := (replay_log_bounded capacity ms).1
    have hlog := broadcastLog_event_ids ms 1 (by omega)
    have hids :
        (runBroadcasts (ClientHub.with_replay_capacity capacity)
            ms).notification_replay.map (·.event_id) =
          lastN capacity (List.range' 1 ms.length) := by
      rw [hreplay, ← hlog]
      simp [lastN]
    have hlastN_sub : List.Sublist (lastN capacity (List.range' 1 ms.length))
        (List.range' 1 ms.length) := by
      have h1 : List.Sublist ((List.range' 1 ms.length).reverse.take capacity)
          (List.range' 1 ms.length).reverse := List.take_sublist _ _
      simpa [lastN] using h1.reverse
    have hpair : List.Pairwise (· < ·)
        ((runBroadcasts (ClientHub.with_replay_capacity capacity)
            ms).notification_replay.map (·.event_id)) := by
      rw [hids]
      exact (List.chain'_iff_pairwise.mp (chain'_lt_range' 1 ms.length)).sublist hlastN_sub
    refine List.Pairwise.chain' ?_
    have hsub : List.Sublist
        (((runBroadcasts (ClientHub.with_replay_capacity capacity)
            ms).notification_replay.filter
          (fun e => c.getD 0 < e.event_id)).map (·.event_id))
        ((runBroadcasts (ClientHub.with_replay_capacity capacity)
            ms).notification_replay.map (·.event_id)) :=
      (List.filter_sublist _).map _
    exact hpair.sublist hsub

/-- Witness for C2 at the spec's replay-cursor scenario: two broadcasts,
cursor 1, limit 10. -/
theorem replay_since_exact_witness :
    ([("turn/started", Json.null), ("turn/completed", Json.null)] : List (String × Json)).length
        < U64_MOD ∧
    (runBroadcasts (ClientHub.with_replay_capacity 16)
        [("turn/started", Json.null), ("turn/completed", Json.null)]).replay_since (some 1) 10 =
      ((((runBroadcasts (ClientHub.with_replay_capacity 16)
            [("turn/started", Json.null),
              ("turn/completed", Json.null)]).notification_replay.filter
          (fun e => (some 1 : Option Nat).getD 0 < e.event_id)).take 10).map (·.payload),
        decide (10 <
          ((runBroadcasts (ClientHub.with_replay_capacity 16)
              [("turn/started", Json.null),
                ("turn/completed", Json.null)]).notification_replay.filter
            (fun e => (some 1 : Option Nat).getD 0 < e.event_id)).length)) :=
  ⟨by norm_num [U64_MOD],
    (replay_since_exact 16 [("turn/started", Json.null), ("turn/completed", Json.null)]
      (some 1) 10 (by norm_num [U64_MOD])).1⟩

/-! ## Approval decisions: parsing and the two wire encodings -/

/-- Model of `ApprovalDecisionCanonical` (main.rs). -/
inductive ApprovalDecisionCanonical where
  | accept
  | acceptForSession
  | decline
  | cancel
  | acceptWithExecpolicyAmendment (tokens : List String)
deriving DecidableEq

/-- Model of `ApprovalResponseFormat` (main.rs). -/
inductive ApprovalResponseFormat where
  | Modern
  | Legacy
deriving DecidableEq

/-- The entry loop of `parse_string_array_strict`: every entry must be a
string, failing on the first that is not. -/
def parse_all_strings : List Json → Option (List String)
  | [] => some []
  | entry :: rest =>
    match entry.asStr with
    | none => none
    | some text => (parse_all_strings rest).map (fun parsed => text :: parsed)

/-- Model of `parse_string_array_strict`: requires an array value that is
non-empty and all of whose entries are strings. -/
def parse_string_array_strict (value : Option Json) : Option (List String) :=
  match value.bind Json.asArr with
  | none => none
  | some entries =>
    if entries.isEmpty then none
    else parse_all_strings entries

/-- Model of `parse_approval_decision` (main.rs). -/
def parse_approval_decision (value : Json) : Option ApprovalDecisionCanonical :=
  match value.asStr with
  | some raw =>
    if raw = "accept" ∨ raw = "approved" then some .accept
    else if raw = "acceptForSession" ∨ raw = "approved_for_session" then
      some .acceptForSession
    else if raw = "decline" ∨ raw = "denied" then some .decline
    else if raw = "cancel" ∨ raw = "abort" then some .cancel
    else none
  | none =>
    match value.asObj with
    | none => none
    | some object =>
      match jget object "acceptWithExecpolicyAmendment" with
      | some amendment =>
        (amendment.asObj.bind fun entry =>
          parse_string_array_strict (jget entry "execpolicy_amendment")).map
          ApprovalDecisionCanonical.acceptWithExecpolicyAmendment
      | none =>
        match jget object "approved_execpolicy_amendment" with
        | some amendment =>
          (amendment.asObj.bind fun entry =>
            parse_string_array_strict (jget entry "proposed_execpolicy_amendment")).map
            ApprovalDecisionCanonical.acceptWithExecpolicyAmendment
        | none => none

/-- The match arms of `approval_decision_to_response_value`: rendering a
canonical decision in the requested wire shape. -/
def approval_canonical_to_response :
    ApprovalDecisionCanonical → ApprovalResponseFormat → Json
  | .accept, .Modern => .str "accept"
  | .acceptForSession, .Modern => .str "acceptForSession"
  | .decline, .Modern => .str "decline"
  | .cancel, .Modern => .str "cancel"
  | .acceptWithExecpolicyAmendment tokens, .Modern =>
    .obj [("acceptWithExecpolicyAmendment",
      .obj [("execpolicy_amendment", .arr (tokens.map Json.str))])]
  | .accept, .Legacy => .str "approved"
  | .acceptForSession, .Legacy => .str "approved_for_session"
  | .decline, .Legacy => .str "denied"
  | .cancel, .Legacy => .str "abort"
  | .acceptWithExecpolicyAmendment tokens, .Legacy =>
    .obj [("approved_execpolicy_amendment",
      .obj [("proposed_execpolicy_amendment", .arr (tokens.map Json.str))])]

/-- Model of `approval_decision_to_response_value` (main.rs): parse, then
render in the pending entry's response format. -/
def approval_decision_to_response_value (decision : Json)
    (response_format : ApprovalResponseFormat) : Option Json :=
  (parse_approval_decision decision).map
    (fun parsed => approval_canonical_to_response parsed response_format)

/-- A canonical decision value the parser can actually produce: the
amendment token list is never empty. -/
def approvalDecisionWellFormed : ApprovalDecisionCanonical → Bool
  | .acceptWithExecpolicyAmendment tokens => !tokens.isEmpty
  | _ => true

theorem parse_all_strings_map_str (tokens : List String) :
    parse_all_strings (tokens.map Json.str) = some tokens := by
  induction tokens with
  | nil => rfl
  | cons t rest ih => simp [parse_all_strings, ih, Json.asStr]

/-- C6: every canonical decision the parser can produce round-trips
through both the modern and the legacy wire encoding, and a decision
object whose execpolicy-amendment array is empty or contains a non-string
entry is rejected by the parser. -/
theorem approval_decision_roundtrip :
    (∀ (c : ApprovalDecisionCanonical) (fmt : ApprovalResponseFormat),
      approvalDecisionWellFormed c = true →
        parse_approval_decision (approval_canonical_to_response c fmt) = some c) ∧
    parse_approval_decision
        (.obj [("acceptWithExecpolicyAmendment",
          .obj [("execpolicy_amendment", .arr [])])]) = none ∧
    parse_approval_decision
        (.obj [("acceptWithExecpolicyAmendment",
          .obj [("execpolicy_amendment", .arr [.str "ok", .num 1])])]) = none ∧
    parse_approval_decision
        (.obj [("approved_execpolicy_amendment",
          .obj [("proposed_execpolicy_amendment", .arr [])])]) = none ∧
    parse_approval_decision
        (.obj [("approved_execpolicy_amendment",
          .obj [("proposed_execpolicy_amendment", .arr [.str "ok", .bool true])])]) =
      none := by
  refine ⟨?_, rfl, rfl, rfl, rfl⟩
  intro c fmt hwf
  cases c with
  | acceptWithExecpolicyAmendment tokens =>
    have hne : tokens ≠ [] := by
      simpa [approvalDecisionWellFormed] using hwf
    cases fmt <;>
      simp [approval_canonical_to_response, parse_approval_decision, Json.asStr,
        Json.asObj, jget, parse_string_array_strict, Json.asArr, hne,
        parse_all_strings_map_str]
  | accept => cases fmt <;> rfl
  | acceptForSession => cases fmt <;> rfl
  | decline => cases fmt <;> rfl
  | cancel => cases fmt <;> rfl

/-- Witness for C6 with a two-token amendment through the legacy format. -/
theorem approval_decision_roundtrip_witness :
    approvalDecisionWellFormed
        (.acceptWithExecpolicyAmendment ["--allow-network", "git"]) = true ∧
    parse_approval_decision
        (approval_canonical_to_response
          (.acceptWithExecpolicyAmendment ["--allow-network", "git"]) .Legacy) =
      some (.acceptWithExecpolicyAmendment ["--allow-network", "git"]) :=
  ⟨rfl, approval_decision_roundtrip.1
    (.acceptWithExecpolicyAmendment ["--allow-network", "git"]) .Legacy rfl⟩

/-! ## Agent bridge: pending registries, approval resolution, exit drain

The bridge's `HashMap`s are modelled as function maps (a `HashMap` has no
observable ordering), except the forwarded-request map, which the exit
watcher drains by iteration and is therefore modelled as an association
list in one fixed iteration order. -/

/-- Model of `PendingRequest` (main.rs). -/
structure PendingRequest where
  client_id : Nat
  client_request_id : Json

/-- Model of `PendingApproval` (main.rs). -/
structure PendingApproval where
  id : String
  kind : String
  thread_id : String
  turn_id : String
  item_id : String
  requested_at : String
  reason : Option String
  command : Option String
  cwd : Option String
  grant_root : Option String
  proposed_execpolicy_amendment : Option (List String)

/-- Model of `PendingApprovalEntry` (main.rs). -/
structure PendingApprovalEntry where
  app_server_request_id : Json
  response_format : ApprovalResponseFormat
  approval : PendingApproval

/-- Model of `PendingUserInputQuestionOption` (main.rs). -/
structure PendingUserInputQuestionOption where
  label : String
  description : String

/-- Model of `PendingUserInputQuestion` (main.rs). -/
structure PendingUserInputQuestion where
  id : String
  header : String
  question : String
  is_other : Bool
  is_secret : Bool
  options : Option (List PendingUserInputQuestionOption)

/-- Model of `PendingUserInputRequest` (main.rs). -/
structure PendingUserInputRequest where
  id : String
  thread_id : String
  turn_id : String
  item_id : String
  requested_at : String
  questions : List PendingUserInputQuestion

/-- Model of `PendingUserInputEntry` (main.rs). -/
structure PendingUserInputEntry where
  app_server_request_id : Json
  request : PendingUserInputRequest

/-- `HashMap<String, PendingApprovalEntry>` as a function map. -/
def ApprovalMap : Type := String → Option PendingApprovalEntry

/-- `HashMap<String, PendingUserInputEntry>` as a function map. -/
def UserInputMap : Type := String → Option PendingUserInputEntry

/-- `HashMap::remove` on the function-map model. -/
def approvalRemove (m : ApprovalMap) (key : String) : ApprovalMap :=
  fun k => if k = key then none else m k

/-- `HashMap::insert` on the function-map model. -/
def approvalInsert (m : ApprovalMap) (key : String) (entry : PendingApprovalEntry) :
    ApprovalMap :=
  fun k => if k = key then some entry else m k

/-- The mutable bridge state the exit watcher and `resolve_approval`
touch.  The subprocess handle, the stdin writer and the internal-waiter
map are not read by these two paths beyond the modelled effects. -/
structure AppServerBridgeState where
  pending_requests : List (Nat × PendingRequest)
  pending_approvals : ApprovalMap
  pending_user_inputs : UserInputMap

/-- Model of `AppServerBridge::fail_all_pending`: drain every forwarded
request and send each originating client one error reply carrying its own
request id and the given message under code `-32000`. -/
def fail_all_pending (state : AppServerBridgeState) (message : String) :
    AppServerBridgeState × List (Nat × Json) :=
  let replies := state.pending_requests.map (fun entry =>
    (entry.2.client_id,
      Json.obj [("id", entry.2.client_request_id),
        ("error", Json.obj [("code", .num (-32000)), ("message", .str message)])]))
  ({ state with pending_requests := [] }, replies)

/-- Model of the tail of `AppServerBridge::spawn_wait_loop`: once the
subprocess has exited, fail all pending forwarded requests with the
message "app-server closed", then clear the pending-approval and
pending-user-input registries. -/
def on_agent_exit (state : AppServerBridgeState) :
    AppServerBridgeState × List (Nat × Json) :=
  let step := fail_all_pending state "app-server closed"
  ({ step.1 with
      pending_approvals := fun _ => none,
      pending_user_inputs := fun _ => none },
    step.2)

/-- Reads the `error.message` string out of a reply payload. -/
def replyErrorMessage (reply : Json) : Option String :=
  read_string ((reply.asObj.bind (fun fields => jget fields "error")).bind
    (fun err => err.asObj.bind (fun fields => jget fields "message")))

/-- C4 counterexample: with one pending forwarded request, the drained
reply does not carry the message "agent closed" claimed by the spec — the
code writes "app-server closed" (main.rs line 534, confirmed by the
`app_server_fail_all_pending_notifies_waiting_clients` test). -/
theorem agent_exit_message_counterexample :
    ¬ ((on_agent_exit
        { pending_requests := [(7, ⟨1, Json.str "req-a"⟩)],
          pending_approvals := fun _ => none,
          pending_user_inputs := fun _ => none }).2 =
      [(1, Json.obj [("id", Json.str "req-a"),
        ("error", Json.obj [("code", .num (-32000)),
          ("message", .str "agent closed")])])]) := by
  intro h
  have hmsg := congrArg (fun rs => rs.map (fun r => replyErrorMessage (Prod.snd r))) h
  have hleft : ((on_agent_exit
      { pending_requests := [(7, ⟨1, Json.str "req-a"⟩)],
        pending_approvals := fun _ => none,
        pending_user_inputs := fun _ => none }).2).map
          (fun r => replyErrorMessage (Prod.snd r)) = [some "app-server closed"] := by
    decide
  have hright : ([(1, Json.obj [("id", Json.str "req-a"),
      ("error", Json.obj [("code", .num (-32000)),
        ("message", .str "agent closed")])])] : List (Nat × Json)).map
          (fun r => replyErrorMessage (Prod.snd r)) = [some "agent closed"] := by
    decide
  dsimp only at hmsg
  rw [hleft, hright] at hmsg
  simp at hmsg

/-- C4 amended: when the agent subprocess exits, every pending forwarded
request is drained and its originating client is sent exactly one error
reply `\x7bid: clientRequestId, error: \x7bcode: -32000, message:
"app-server closed"\x7d\x7d`, and afterwards the forwarded-request map,
the pending-approval registry and the pending-user-input registry are all
empty. -/
theorem agent_exit_drains_pending (state : AppServerBridgeState) :
    (on_agent_exit state).2 = state.pending_requests.map (fun entry =>
      (entry.2.client_id,
        Json.obj [("id", entry.2.client_request_id),
          ("error", Json.obj [("code", .num (-32000)),
            ("message", .str "app-server closed")])])) ∧
    (on_agent_exit state).1.pending_requests = [] ∧
    (∀ k, (on_agent_exit state).1.pending_approvals k = none) ∧
    (∀ k, (on_agent_exit state).1.pending_user_inputs k = none) :=
  ⟨rfl, rfl, fun _ => rfl, fun _ => rfl⟩

/-- The outcome of `resolve_approval`: the returned value, the registry
afterwards, the lines written to the subprocess, and the notifications
broadcast. -/
structure ResolveApprovalOutcome where
  result : Except String (Option PendingApproval)
  pending_approvals : ApprovalMap
  written : List Json
  broadcasts : List (String × Json)

/-- Model of `AppServerBridge::resolve_approval`.  `write_ok` models
whether the `write_json` line write to the subprocess stdin succeeds, and
`now` the `now_iso()` timestamp. -/
def resolve_approval (approvals : ApprovalMap) (approval_id : String) (decision : Json)
    (write_ok : Bool) (now : String) : ResolveApprovalOutcome :=
  match approvals approval_id with
  | none => ⟨.ok none, approvals, [], []⟩
  | some pending =>
    let removed := approvalRemove approvals approval_id
    match approval_decision_to_response_value decision pending.response_format with
    | none =>
      ⟨.error "invalid approval decision payload",
        approvalInsert removed approval_id pending, [], []⟩
    | some mapped =>
      let response := Json.obj [("id", pending.app_server_request_id),
        ("result", Json.obj [("decision", mapped)])]
      if write_ok then
        ⟨.ok (some pending.approval), removed, [response],
          [("bridge/approval.resolved",
            Json.obj [("id", .str pending.approval.id),
              ("threadId", .str pending.approval.thread_id),
              ("decision", decision), ("resolvedAt", .str now)])]⟩
      else
        ⟨.error "failed to send approval response",
          approvalInsert removed approval_id pending, [], []⟩

theorem approval_restore_verbatim (approvals : ApprovalMap) (approval_id : String)
    (pending : PendingApprovalEntry) (hfound : approvals approval_id = some pending) :
    approvalInsert (approvalRemove approvals approval_id) approval_id pending = approvals := by
  funext k
  simp only [approvalInsert, approvalRemove]
  by_cases hk : k = approval_id
  · subst hk
    simp [hfound]
  · simp [hk]

/-- C5: `resolve_approval` is atomic with respect to the pending-approval
registry.  If the decision fails to parse, or the write to the subprocess
fails, the pending entry is restored verbatim — the registry equals its
state before the call — and an error is returned; on success the entry is
removed and `bridge/approval.resolved` is broadcast. -/
theorem resolve_approval_atomic (approvals : ApprovalMap) (approval_id : String)
    (decision : Json) (write_ok : Bool) (now : String) (pending : PendingApprovalEntry)
    (hfound : approvals approval_id = some pending) :
    (approval_decision_to_response_value decision pending.response_format = none →
      (resolve_approval approvals approval_id decision write_ok now).pending_approvals =
          approvals ∧
      (resolve_approval approvals approval_id decision write_ok now).result =
          .error "invalid approval decision payload" ∧
      (resolve_approval approvals approval_id decision write_ok now).broadcasts = []) ∧
    (write_ok = false →
      (resolve_approval approvals approval_id decision write_ok now).pending_approvals =
          approvals ∧
      (∃ msg, (resolve_approval approvals approval_id decision write_ok now).result =
        .error msg) ∧
      (resolve_approval approvals approval_id decision write_ok now).broadcasts = []) ∧
    (∀ mapped, approval_decision_to_response_value decision pending.response_format =
        some mapped → write_ok = true →
      (resolve_approval approvals approval_id decision write_ok now).pending_approvals =
          approvalRemove approvals approval_id ∧
      (resolve_approval approvals approval_id decision write_ok now).result =
          .ok (some pending.approval) ∧
      (resolve_approval approvals approval_id decision write_ok now).broadcasts.map
          Prod.fst = ["bridge/approval.resolved"]) := by
  refine ⟨?_, ?_, ?_⟩
  · intro hparse
    refine ⟨?_, ?_, ?_⟩
    · simp only [resolve_approval, hfound, hparse]
      exact approval_restore_verbatim approvals approval_id pending hfound
    · simp [resolve_approval, hfound, hparse]
    · simp [resolve_approval, hfound, hparse]
  · intro hwrite
    subst hwrite
    cases hparse : approval_decision_to_response_value decision pending.response_format with
    | none =>
      refine ⟨?_, ⟨"invalid approval decision payload", ?_⟩, ?_⟩
      · simp only [resolve_approval, hfound, hparse]
        exact approval_restore_verbatim approvals approval_id pending hfound
      · simp [resolve_approval, hfound, hparse]
      · simp [resolve_approval, hfound, hparse]
    | some mapped =>
      refine ⟨?_, ⟨"failed to send approval response", ?_⟩, ?_⟩
      · simp only [resolve_approval, hfound, hparse, Bool.false_eq_true, if_false]
        exact approval_restore_verbatim approvals approval_id pending hfound
      · simp [resolve_approval, hfound, hparse]
      · simp [resolve_approval, hfound, hparse]
  · intro mapped hparse hwrite
    subst hwrite
    refine ⟨?_, ?_, ?_⟩ <;> simp [resolve_approval, hfound, hparse]

/-- Concrete pending-approval entry used by the C5 witness. -/
def sampleApprovalEntry : PendingApprovalEntry :=
  ⟨Json.num 3, .Modern,
    ⟨"ap-1", "commandExecution", "t-1", "turn-1", "item-1", "now",
      none, none, none, none, none⟩⟩

/-- Concrete one-entry registry used by the C5 witness. -/
def sampleApprovalMap : ApprovalMap :=
  fun k => if k = "ap-1" then some sampleApprovalEntry else none

/-- Witness for C5: a failed write restores a one-entry registry
verbatim. -/
theorem resolve_approval_atomic_witness :
    sampleApprovalMap "ap-1" = some sampleApprovalEntry ∧
    (resolve_approval sampleApprovalMap "ap-1" (Json.str "accept")
        false "later").pending_approvals = sampleApprovalMap ∧
    (∃ msg, (resolve_approval sampleApprovalMap "ap-1" (Json.str "accept")
        false "later").result = .error msg) :=
  have hfound : sampleApprovalMap "ap-1" = some sampleApprovalEntry := by
    simp [sampleApprovalMap]
  ⟨hfound,
    ((resolve_approval_atomic sampleApprovalMap "ap-1" (Json.str "accept") false "later"
        sampleApprovalEntry hfound).2.1 rfl).1,
    ((resolve_approval_atomic sampleApprovalMap "ap-1" (Json.str "accept") false "later"
        sampleApprovalEntry hfound).2.1 rfl).2.1⟩

/-! ## String helpers shared by the rollout tailer and sanitizers -/

/-- Characters with the Unicode `White_Space` property, as used by Rust's
`char::is_whitespace` / `str::trim`. -/
def rustIsWhitespace (c : Char) : Bool :=
  c = ' ' || c = '\t' || c = '\n' || c = '\x0b' || c = '\x0c' || c = '\r' ||
    c = '\x85' || c = '\xa0' || c = '\u1680' ||
    (('\u2000' : Char) ≤ c && c ≤ ('\u200a' : Char)) ||
    c = '\u2028' || c = '\u2029' || c = '\u202f' || c = '\u205f' || c = '\u3000'

/-- Model of `str::trim` on a character list. -/
def rustTrimList (cs : List Char) : List Char :=
  ((cs.dropWhile rustIsWhitespace).reverse.dropWhile rustIsWhitespace).reverse

/-- Model of `str::trim`. -/
def rustTrim (s : String) : String :=
  String.mk (rustTrimList s.data)

/-- Whether `needle` is an initial segment of `hay`. -/
def startsWithList : List Char → List Char → Bool
  | [], _ => true
  | _ :: _, [] => false
  | n :: ns, h :: hs => n = h && startsWithList ns hs

/-- Model of `str::contains` with a string pattern (substring search). -/
def containsSub (needle : List Char) : List Char → Bool
  | [] => startsWithList needle []
  | h :: rest => startsWithList needle (h :: rest) || containsSub needle rest

/-- Model of `str::contains` on `String`. -/
def strContains (hay needle : String) : Bool :=
  containsSub needle.data hay.data

/-- Model of `char::to_ascii_lowercase`. -/
def asciiLowerChar (c : Char) : Char :=
  if 'A' ≤ c && c ≤ 'Z' then Char.ofNat (c.toNat + 32) else c

/-- Model of `str::to_ascii_lowercase`. -/
def asciiLower (s : String) : String :=
  String.mk (s.data.map asciiLowerChar)

/-! ## A model of serde_json::from_str

Modelled from the spec: the bridge parses agent output and rollout lines
with `serde_json::from_str`, an external crate whose source is not part of
this repository.  The model below implements the JSON grammar the spec's
wire formats use, with two restrictions that no bridge code path exercises:
numbers are integer numerals (no fraction or exponent), and `\uXXXX`
escapes must denote non-surrogate code points.  Duplicate object keys keep
the last binding, as `serde_json`'s map insert does. -/

/-- JSON insignificant whitespace. -/
def isJsonWs (c : Char) : Bool :=
  c = ' ' || c = '\t' || c = '\n' || c = '\r'

def skipWs : List Char → List Char
  | [] => []
  | c :: rest => if isJsonWs c then skipWs rest else c :: rest

def hexDigitVal (c : Char) : Option Nat :=
  let n := c.toNat
  if 48 ≤ n ∧ n ≤ 57 then some (n - 48)
  else if 97 ≤ n ∧ n ≤ 102 then some (n - 87)
  else if 65 ≤ n ∧ n ≤ 70 then some (n - 55)
  else none

/-- Scan a JSON string body (after the opening quote), returning the
decoded characters and the input after the closing quote. -/
def scanJsonString : List Char → Option (List Char × List Char)
  | [] => none
  | c :: rest =>
    if c = '"' then some ([], rest)
    else if c = '\\' then
      match rest with
      | [] => none
      | e :: rest2 =>
        if e = '"' then (scanJsonString rest2).map (fun sr => ('"' :: sr.1, sr.2))
        else if e = '\\' then (scanJsonString rest2).map (fun sr => ('\\' :: sr.1, sr.2))
        else if e = '/' then (scanJsonString rest2).map (fun sr => ('/' :: sr.1, sr.2))
        else if e = 'b' then (scanJsonString rest2).map (fun sr => ('\x08' :: sr.1, sr.2))
        else if e = 'f' then (scanJsonString rest2).map (fun sr => ('\x0c' :: sr.1, sr.2))
        else if e = 'n' then (scanJsonString rest2).map (fun sr => ('\n' :: sr.1, sr.2))
        else if e = 'r' then (scanJsonString rest2).map (fun sr => ('\r' :: sr.1, sr.2))
        else if e = 't' then (scanJsonString rest2).map (fun sr => ('\t' :: sr.1, sr.2))
        else if e = 'u' then
          match rest2 with
          | h1 :: h2 :: h3 :: h4 :: rest3 =>
            match hexDigitVal h1, hexDigitVal h2, hexDigitVal h3, hexDigitVal h4 with
            | some d1, some d2, some d3, some d4 =>
              let code := ((d1 * 16 + d2) * 16 + d3) * 16 + d4
              if 0xd800 ≤ code ∧ code ≤ 0xdfff then none
              else (scanJsonString rest3).map (fun sr => (Char.ofNat code :: sr.1, sr.2))
            | _, _, _, _ => none
          | _ => none
        else none
    else (scanJsonString rest).map (fun sr => (c :: sr.1, sr.2))

def isAsciiDigit (c : Char) : Bool :=
  '0' ≤ c && c ≤ '9'

/-- Scan a run of decimal digits into a natural number. -/
def scanDigits : List Char → Nat → Option (Nat × List Char)
  | [], acc => some (acc, [])
  | c :: rest, acc =>
    if isAsciiDigit c then scanDigits rest (acc * 10 + (c.toNat - '0'.toNat))
    else some (acc, c :: rest)

/-- Replace-or-append a key, as `serde_json::Map::insert` observably
behaves under lookup (the later binding wins). -/
def jsonObjSet (fields : List (String × Json)) (key : String) (value : Json) :
    List (String × Json) :=
  match jget fields key with
  | some _ => fields.map (fun kv => if kv.1 = key then (key, value) else kv)
  | none => fields ++ [(key, value)]

mutual

def parseJsonValue (fuel : Nat) (cs : List Char) : Option (Json × List Char) :=
  match fuel with
  | 0 => none
  | fuel + 1 =>
    match skipWs cs with
    | [] => none
    | c :: rest =>
      if c = 'n' then
        match rest with
        | 'u' :: 'l' :: 'l' :: rest2 => some (Json.null, rest2)
        | _ => none
      else if c = 't' then
        match rest with
        | 'r' :: 'u' :: 'e' :: rest2 => some (Json.bool true, rest2)
        | _ => none
      else if c = 'f' then
        match rest with
        | 'a' :: 'l' :: 's' :: 'e' :: rest2 => some (Json.bool false, rest2)
        | _ => none
      else if c = '"' then
        (scanJsonString rest).map (fun sr => (Json.str (String.mk sr.1), sr.2))
      else if c = '\x5b' then
        parseJsonArrayItems fuel rest true
      else if c = '\x7b' then
        parseJsonObjectItems fuel rest true
      else if c = '-' then
        match rest with
        | d :: _ =>
          if isAsciiDigit d then
            (scanDigits rest 0).map (fun nr => (Json.num (-(nr.1 : Int)), nr.2))
          else none
        | [] => none
      else if isAsciiDigit c then
        (scanDigits (c :: rest) 0).map (fun nr => (Json.num (nr.1 : Int), nr.2))
      else none

/-- Items of an array (after the opening bracket); `first` is true before
any item has been consumed, so an immediate closing bracket yields `[]`. -/
def parseJsonArrayItems (fuel : Nat) (cs : List Char) (first : Bool) :
    Option (Json × List Char) :=
  match fuel with
  | 0 => none
  | fuel + 1 =>
    match skipWs cs with
    | ']' :: rest2 =>
      if first then some (Json.arr [], rest2) else none
    | cs2 =>
      match parseJsonValue fuel cs2 with
      | none => none
      | some (item, afterItem) =>
        match skipWs afterItem with
        | ',' :: rest3 =>
          match parseJsonArrayItems fuel rest3 false with
          | some (Json.arr items, rest4) => some (Json.arr (item :: items), rest4)
          | _ => none
        | ']' :: rest3 => some (Json.arr [item], rest3)
        | _ => none

/-- Members of an object (after the opening brace). -/
def parseJsonObjectItems (fuel : Nat) (cs : List Char) (first : Bool) :
    Option (Json × List Char) :=
  match fuel with
  | 0 => none
  | fuel + 1 =>
    match skipWs cs with
    | '\x7d' :: rest2 =>
      if first then some (Json.obj [], rest2) else none
    | '"' :: rest2 =>
      match scanJsonString rest2 with
      | none => none
      | some (keyChars, afterKey) =>
        match skipWs afterKey with
        | ':' :: afterColon =>
          match parseJsonValue fuel afterColon with
          | none => none
          | some (value, afterValue) =>
            match skipWs afterValue with
            | ',' :: rest3 =>
              match parseJsonObjectItems fuel rest3 false with
              | some (Json.obj fields, rest4) =>
                match jget fields (String.mk keyChars) with
                | some _ => some (Json.obj fields, rest4)
                | none => some (Json.obj ((String.mk keyChars, value) :: fields), rest4)
              | _ => none
            | '\x7d' :: rest3 =>
              some (Json.obj [(String.mk keyChars, value)], rest3)
            | _ => none
        | _ => none
    | _ => none

end

/-- Model of `serde_json::from_str::<Value>`: parse one value and require
only trailing whitespace after it. -/
def jsonFromStr (s : String) : Option Json :=
  match parseJsonValue (s.data.length + 1) s.data with
  | none => none
  | some (value, rest) =>
    match skipWs rest with
    | [] => some value
    | _ => none

/-! ## A model of shlex::split

Modelled from the spec: the rollout projector shell-splits the
`exec_command` `cmd` string with `shlex::split`, an external crate whose
source is not part of this repository.  The model implements POSIX-style
word splitting — whitespace separates words, single quotes are literal,
double quotes admit backslash escapes of the quote and the backslash, a
bare backslash escapes the next character — and fails (returns `none`) on
an unterminated quote or a trailing backslash. -/

def isShlexWs (c : Char) : Bool :=
  c = ' ' || c = '\t' || c = '\n' || c = '\r'

/-- Scan a single-quoted section: everything up to the closing quote is
literal. -/
def scanSingleQuoted : List Char → Option (List Char × List Char)
  | [] => none
  | c :: rest =>
    if c = '\'' then some ([], rest)
    else (scanSingleQuoted rest).map (fun sr => (c :: sr.1, sr.2))

/-- Scan a double-quoted section, with backslash escapes for the double
quote and the backslash. -/
def scanDoubleQuoted : List Char → Option (List Char × List Char)
  | [] => none
  | c :: rest =>
    if c = '"' then some ([], rest)
    else if c = '\\' then
      match rest with
      | [] => none
      | e :: rest2 =>
        if e = '"' || e = '\\' then
          (scanDoubleQuoted rest2).map (fun sr => (e :: sr.1, sr.2))
        else
          (scanDoubleQuoted rest2).map (fun sr => (c :: e :: sr.1, sr.2))
    else (scanDoubleQuoted rest).map (fun sr => (c :: sr.1, sr.2))

/-- The word-splitting loop: `acc` holds the current word reversed, and
`inWord` whether a word is open (so quoted empty words are kept). -/
def shlexLoop (fuel : Nat) (cs : List Char) (acc : List Char) (inWord : Bool) :
    Option (List String) :=
  match fuel with
  | 0 => none
  | fuel + 1 =>
    match cs with
    | [] => some (if inWord then [String.mk acc.reverse] else [])
    | c :: rest =>
      if isShlexWs c then
        if inWord then
          (shlexLoop fuel rest [] false).map (String.mk acc.reverse :: ·)
        else shlexLoop fuel rest [] false
      else if c = '\\' then
        match rest with
        | [] => none
        | e :: rest2 => shlexLoop fuel rest2 (e :: acc) true
      else if c = '\'' then
        match scanSingleQuoted rest with
        | none => none
        | some (inner, rest2) => shlexLoop fuel rest2 (inner.reverse ++ acc) true
      else if c = '"' then
        match scanDoubleQuoted rest with
        | none => none
        | some (inner, rest2) => shlexLoop fuel rest2 (inner.reverse ++ acc) true
      else shlexLoop fuel rest (c :: acc) true

/-- Model of `shlex::split`. -/
def shlexSplit (s : String) : Option (List String) :=
  shlexLoop (s.data.length + 1) s.data [] false

/-! ## Rollout tailer: record projection -/

/-- Model of `rollout_originator_allowed` (main.rs): an absent originator
is allowed; otherwise the ASCII-lowercased originator must contain
"codex" or "clawdex". -/
def rollout_originator_allowed (originator : Option String) : Bool :=
  match originator with
  | some value =>
    let normalized := asciiLower value
    strContains normalized "codex" || strContains normalized "clawdex"
  | none => true

/-- Model of `extract_rollout_thread_id` (main.rs): the or-else chain over
the payload's own keys, the `source` object, the
`source.subagent.thread_spawn` object, and finally (when allowed) the
session `id`. -/
def extract_rollout_thread_id (payload : List (String × Json))
    (allow_session_id_fallback : Bool) : Option String :=
  let source := (jget payload "source").bind Json.asObj
  let source_subagent :=
    source.bind (fun v => (jget v "subagent").bind Json.asObj)
  let source_thread_spawn :=
    source_subagent.bind (fun v => (jget v "thread_spawn").bind Json.asObj)
  (read_string (jget payload "thread_id")) <|>
  (read_string (jget payload "threadId")) <|>
  (read_string (jget payload "conversation_id")) <|>
  (read_string (jget payload "conversationId")) <|>
  (source.bind (fun v => read_string (jget v "thread_id"))) <|>
  (source.bind (fun v => read_string (jget v "threadId"))) <|>
  (source.bind (fun v => read_string (jget v "conversation_id"))) <|>
  (source.bind (fun v => read_string (jget v "conversationId"))) <|>
  (source.bind (fun v => read_string (jget v "parent_thread_id"))) <|>
  (source.bind (fun v => read_string (jget v "parentThreadId"))) <|>
  (source_thread_spawn.bind (fun v => read_string (jget v "parent_thread_id"))) <|>
  (if allow_session_id_fallback then read_string (jget payload "id") else none)

/-- Model of `serde_json::Map::entry(k).or_insert_with(v)` as observed
through lookups: insert only when the key is absent. -/
def jsonObjSetIfAbsent (fields : List (String × Json)) (key : String) (value : Json) :
    List (String × Json) :=
  match jget fields key with
  | some _ => fields
  | none => fields ++ [(key, value)]

/-- Model of `read_string_array` (main.rs), an alias of
`parse_string_array_strict`. -/
def read_string_array (value : Option Json) : Option (List String) :=
  parse_string_array_strict value

/-- Model of `read_shell_command` (main.rs): a string value is taken
as-is; otherwise a strict string array is joined with single spaces. -/
def read_shell_command (value : Option Json) : Option String :=
  match read_string value with
  | some command => some command
  | none => (read_string_array value).map (fun parts => String.intercalate " " parts)

/-- Model of `parse_rollout_function_call_arguments` (main.rs): a string
value is parsed as JSON (defaulting to null), anything else is kept. -/
def parse_rollout_function_call_arguments (raw_arguments : Option Json) : Json :=
  match raw_arguments.bind Json.asStr with
  | some text_arguments => (jsonFromStr text_arguments).getD Json.null
  | none => raw_arguments.getD Json.null

/-- Model of `str::trim_start_matches` with a string pattern: strip every
leading occurrence. -/
def trimStartMatchesList (pat : List Char) : List Char → List Char
  | [] => []
  | c :: rest =>
    if pat ≠ [] ∧ startsWithList pat (c :: rest) then
      trimStartMatchesList pat (List.drop (pat.length - 1) rest)
    else c :: rest
termination_by cs => cs.length
decreasing_by
  simp only [List.length_cons, List.length_drop]
  omega

/-- Model of `str::split` with a string pattern (non-overlapping,
left-to-right; the separator is assumed non-empty, as at its one call
site). -/
def splitOnPatGo (pat : List Char) : List Char → List Char → List (List Char)
  | [], acc => [acc.reverse]
  | c :: rest, acc =>
    if pat ≠ [] ∧ startsWithList pat (c :: rest) then
      acc.reverse :: splitOnPatGo pat (List.drop (pat.length - 1) rest) []
    else splitOnPatGo pat rest (c :: acc)
termination_by cs _ => cs.length
decreasing_by
  · simp only [List.length_cons, List.length_drop]
    omega
  · simp_arith

/-- Model of `parse_rollout_mcp_tool_name` (main.rs). -/
def parse_rollout_mcp_tool_name (name : String) : Option (String × String) :=
  if ¬ startsWithList "mcp__".data name.data then none
  else
    let raw := trimStartMatchesList "mcp__".data name.data
    match splitOnPatGo "__".data raw [] with
    | [] => none
    | server0 :: tool_segments =>
      let server := rustTrimList server0
      if server = [] then none
      else
        let tool := String.intercalate "__" (tool_segments.map String.mk)
        if rustTrim tool = "" then none
        else some (String.mk server, tool)

/-- The entry loop of `extract_rollout_search_query`: the first entry with
a non-blank `q` string wins. -/
def firstSearchQuery : List Json → Option String
  | [] => none
  | entry :: rest =>
    match read_string (entry.asObj.bind (fun item => jget item "q")) with
    | some q => if rustTrim q = "" then firstSearchQuery rest else some q
    | none => firstSearchQuery rest

/-- Model of `extract_rollout_search_query` (main.rs). -/
def extract_rollout_search_query (arguments : Json) : Option String :=
  arguments.asObj.bind (fun object =>
    (((jget object "search_query").bind Json.asArr) <|>
      ((jget object "image_query").bind Json.asArr)).bind firstSearchQuery)

/-- Model of `build_rollout_event_msg_notification` (main.rs).  The `msg`
object is an association list in insertion order; the source's
`serde_json::Map` stores keys sorted, which is indistinguishable under
lookup. -/
def build_rollout_event_msg_notification (payload : List (String × Json))
    (thread_id : String) (timestamp : Option String) : Option (String × Json) :=
  match read_string (jget payload "type") with
  | none => none
  | some raw_type =>
    if raw_type = "token_count" ∨ raw_type = "user_message" ∨
        raw_type = "context_compacted" then none
    else
      let msg := jsonObjSetIfAbsent payload "thread_id" (.str thread_id)
      let msg := jsonObjSetIfAbsent msg "threadId" (.str thread_id)
      let msg := match timestamp with
        | some ts => jsonObjSetIfAbsent msg "timestamp" (.str ts)
        | none => msg
      if raw_type = "agent_reasoning" then
        match read_string (jget payload "text") with
        | none => none
        | some delta =>
          if rustTrim delta = "" then none
          else
            let msg := jsonObjSet msg "type" (.str "agent_reasoning_delta")
            let msg := jsonObjSet msg "delta" (.str delta)
            some ("codex/event/agent_reasoning_delta", Json.obj [("msg", Json.obj msg)])
      else if raw_type = "agent_message" then
        match read_string (jget payload "message") with
        | none => none
        | some delta =>
          if rustTrim delta = "" then none
          else
            let msg := jsonObjSet msg "type" (.str "agent_message_delta")
            let msg := jsonObjSet msg "delta" (.str delta)
            some ("codex/event/agent_message_delta", Json.obj [("msg", Json.obj msg)])
      else
        some ("codex/event/" ++ raw_type, Json.obj [("msg", Json.obj msg)])

/-- Model of `build_rollout_response_item_notification` (main.rs). -/
def build_rollout_response_item_notification (payload : List (String × Json))
    (thread_id : String) (timestamp : Option String) : Option (String × Json) :=
  match read_string (jget payload "type") with
  | none => none
  | some item_type =>
    if item_type ≠ "function_call" then none
    else
      match read_string (jget payload "name") with
      | none => none
      | some name =>
        let arguments := parse_rollout_function_call_arguments (jget payload "arguments")
        if name = "exec_command" then
          match arguments.asObj.bind (fun object => read_shell_command (jget object "cmd"))
            with
          | none => none
          | some command0 =>
            let command := rustTrim command0
            if command = "" then none
            else
              let command_parts := (shlexSplit command).getD [command]
              let msg : List (String × Json) :=
                [("type", .str "exec_command_begin"),
                  ("thread_id", .str thread_id), ("threadId", .str thread_id),
                  ("command", .arr (command_parts.map Json.str))]
              let msg := match read_string (jget payload "call_id") with
                | some call_id => msg ++ [("call_id", .str call_id)]
                | none => msg
              let msg := match timestamp with
                | some ts => msg ++ [("timestamp", .str ts)]
                | none => msg
              some ("codex/event/exec_command_begin", .obj [("msg", .obj msg)])
        else
          match parse_rollout_mcp_tool_name name with
          | some st =>
            let msg : List (String × Json) :=
              [("type", .str "mcp_tool_call_begin"),
                ("thread_id", .str thread_id), ("threadId", .str thread_id),
                ("server", .str st.1), ("tool", .str st.2)]
            let msg := match timestamp with
              | some ts => msg ++ [("timestamp", .str ts)]
              | none => msg
            some ("codex/event/mcp_tool_call_begin", .obj [("msg", .obj msg)])
          | none =>
            if name = "search_query" ∨ name = "image_query" then
              match extract_rollout_search_query arguments with
              | none => none
              | some query =>
                if rustTrim query = "" then none
                else
                  let msg : List (String × Json) :=
                    [("type", .str "web_search_begin"),
                      ("thread_id", .str thread_id), ("threadId", .str thread_id),
                      ("query", .str query)]
                  let msg := match timestamp with
                    | some ts => msg ++ [("timestamp", .str ts)]
                    | none => msg
                  some ("codex/event/web_search_begin", .obj [("msg", .obj msg)])
            else none

/-- The projection-relevant state of `RolloutTrackedFile` (main.rs): the
fields `to_notification` reads or writes.  File offsets, partial-line
buffering and the line-hash dedup window belong to `poll`, which is not
modelled here. -/
structure RolloutTrackedFile where
  thread_id : Option String
  originator : Option String
  include_for_live_sync : Bool

/-- Model of `RolloutTrackedFile::to_notification` (main.rs), returning
the updated tracked-file state together with the optional notification. -/
def RolloutTrackedFile.to_notification (tf : RolloutTrackedFile) (line : String) :
    RolloutTrackedFile × Option (String × Json) :=
  match jsonFromStr line with
  | none => (tf, none)
  | some parsed =>
    match parsed.asObj with
    | none => (tf, none)
    | some parsed_object =>
      match read_string (jget parsed_object "type") with
      | none => (tf, none)
      | some record_type =>
        let timestamp := read_string (jget parsed_object "timestamp")
        match (jget parsed_object "payload").bind Json.asObj with
        | none => (tf, none)
        | some payload =>
          if record_type = "session_meta" then
            let thread_id :=
              (extract_rollout_thread_id payload true) <|> tf.thread_id
            let originator :=
              (read_string (jget payload "originator")) <|> tf.originator
            ({ thread_id := thread_id, originator := originator,
                include_for_live_sync :=
                  thread_id.isSome && rollout_originator_allowed originator }, none)
          else if ¬ tf.include_for_live_sync then (tf, none)
          else
            let tf' := match extract_rollout_thread_id payload false with
              | some payload_thread_id => { tf with thread_id := some payload_thread_id }
              | none => tf
            match tf'.thread_id with
            | none => (tf', none)
            | some thread_id =>
              if record_type = "event_msg" then
                (tf', build_rollout_event_msg_notification payload thread_id timestamp)
              else if record_type = "response_item" then
                (tf', build_rollout_response_item_notification payload thread_id timestamp)
              else (tf', none)

/-- C7: a tracked rollout file with live sync enabled and thread id `t`
projects a `response_item` record of type `function_call` named
`exec_command`, whose string `arguments` field encodes a `cmd` string `s`,
to a `codex/event/exec_command_begin` notification whose `msg.command` is
the shell-split argv of `s` (the code splits the trimmed command),
`msg.thread_id` is `t`, and `msg.call_id` is the record's `call_id`. -/
theorem rollout_exec_command_projection
    (tf : RolloutTrackedFile) (line : String) (fields payload : List (String × Json))
    (a s c t : String) (parts : List String)
    (hinc : tf.include_for_live_sync = true)
    (hthread : tf.thread_id = some t)
    (hline : jsonFromStr line = some (Json.obj fields))
    (htype : read_string (jget fields "type") = some "response_item")
    (hts : jget fields "timestamp" = none)
    (hpayload : (jget fields "payload").bind Json.asObj = some payload)
    (hnothread : extract_rollout_thread_id payload false = none)
    (hptype : read_string (jget payload "type") = some "function_call")
    (hname : read_string (jget payload "name") = some "exec_command")
    (hargs : jget payload "arguments" = some (Json.str a))
    (hargsparse : jsonFromStr a = some (Json.obj [("cmd", Json.str s)]))
    (hcall : jget payload "call_id" = some (Json.str c))
    (htrim : ¬ rustTrim s = "")
    (hsplit : shlexSplit (rustTrim s) = some parts) :
    (tf.to_notification line).2 =
      some ("codex/event/exec_command_begin",
        Json.obj [("msg", Json.obj
          [("type", .str "exec_command_begin"),
            ("thread_id", .str t), ("threadId", .str t),
            ("command", .arr (parts.map Json.str)),
            ("call_id", .str c)])]) := by
  have hbuild : build_rollout_response_item_notification payload t none =
      some ("codex/event/exec_command_begin",
        Json.obj [("msg", Json.obj
          [("type", .str "exec_command_begin"),
            ("thread_id", .str t), ("threadId", .str t),
            ("command", .arr (parts.map Json.str)),
            ("call_id", .str c)])]) := by
    rw [build_rollout_response_item_notification, hptype]
    simp only [reduceIte, hname]
    rw [if_neg (by simp)]
    rw [hargs]
    simp only [parse_rollout_function_call_arguments, Option.some_bind, Json.asStr,
      hargsparse, Option.getD_some, Json.asObj]
    have hshell : read_shell_command (jget [("cmd", Json.str s)] "cmd") = some s := by
      simp [jget, read_shell_command, read_string, Json.asStr]
    rw [hshell]
    dsimp only
    rw [if_neg htrim, hsplit]
    have hcall' : read_string (jget payload "call_id") = some c := by
      simp [read_string, hcall, Json.asStr]
    rw [hcall']
    simp
  rw [RolloutTrackedFile.to_notification, hline]
  dsimp only
  have hobj : (Json.obj fields).asObj = some fields := rfl
  rw [hobj]
  dsimp only
  rw [htype]
  dsimp only
  rw [hts, hpayload]
  dsimp only
  rw [if_neg (by simp), hinc]
  rw [if_neg (by simp), hnothread]
  dsimp only
  rw [hthread]
  dsimp only
  rw [if_neg (by simp), if_pos rfl]
  simpa [read_string] using hbuild

/-- Witness for C7: the spec's rollout-projection scenario, with
`cmd = "npm run test"` splitting to `["npm", "run", "test"]`. -/
theorem rollout_exec_command_projection_witness :
    ((⟨some "t-1", none, true⟩ : RolloutTrackedFile).to_notification
        "\x7b\"type\":\"response_item\",\"payload\":\x7b\"type\":\"function_call\",\"name\":\"exec_command\",\"arguments\":\"\x7b\\\"cmd\\\":\\\"npm run test\\\"\x7d\",\"call_id\":\"c1\"\x7d\x7d").2 =
      some ("codex/event/exec_command_begin",
        Json.obj [("msg", Json.obj
          [("type", .str "exec_command_begin"),
            ("thread_id", .str "t-1"), ("threadId", .str "t-1"),
            ("command", .arr (["npm", "run", "test"].map Json.str)),
            ("call_id", .str "c1")])]) :=
  rollout_exec_command_projection
    ⟨some "t-1", none, true⟩
    "\x7b\"type\":\"response_item\",\"payload\":\x7b\"type\":\"function_call\",\"name\":\"exec_command\",\"arguments\":\"\x7b\\\"cmd\\\":\\\"npm run test\\\"\x7d\",\"call_id\":\"c1\"\x7d\x7d"
    [("type", Json.str "response_item"),
      ("payload", Json.obj
        [("type", Json.str "function_call"), ("name", Json.str "exec_command"),
          ("arguments", Json.str "\x7b\"cmd\":\"npm run test\"\x7d"),
          ("call_id", Json.str "c1")])]
    [("type", Json.str "function_call"), ("name", Json.str "exec_command"),
      ("arguments", Json.str "\x7b\"cmd\":\"npm run test\"\x7d"),
      ("call_id", Json.str "c1")]
    "\x7b\"cmd\":\"npm run test\"\x7d" "npm run test" "c1" "t-1"
    ["npm", "run", "test"]
    rfl rfl (by rfl) rfl rfl rfl rfl rfl rfl rfl (by rfl) rfl (by decide) (by rfl)

/-- C8 counterexample: a `session_meta` record with an empty payload (no
originator, so the originator is absent and allowed) leaves
`includeForLiveSync` false, because the code additionally requires a
resolved thread id (main.rs line 1186). -/
theorem include_for_live_sync_counterexample :
    ¬ ((((⟨none, none, false⟩ : RolloutTrackedFile).to_notification
          "\x7b\"type\":\"session_meta\",\"payload\":\x7b\x7d\x7d").1.include_for_live_sync
            = true) ↔
        (rollout_originator_allowed
          ((⟨none, none, false⟩ : RolloutTrackedFile).to_notification
            "\x7b\"type\":\"session_meta\",\"payload\":\x7b\x7d\x7d").1.originator = true)) := by
  decide

/-- C8 amended: after a tracked rollout file processes a `session_meta`
record, `includeForLiveSync` is true iff a thread id has been resolved
(from the record or carried over) and the (possibly carried-over)
originator is allowed — absent, or containing "codex" or "clawdex"
case-insensitively. -/
theorem session_meta_include_flag
    (tf : RolloutTrackedFile) (line : String) (fields payload : List (String × Json))
    (hline : jsonFromStr line = some (Json.obj fields))
    (htype : read_string (jget fields "type") = some "session_meta")
    (hpayload : (jget fields "payload").bind Json.asObj = some payload) :
    (tf.to_notification line).2 = none ∧
    (tf.to_notification line).1.thread_id =
      ((extract_rollout_thread_id payload true) <|> tf.thread_id) ∧
    (tf.to_notification line).1.originator =
      ((read_string (jget payload "originator")) <|> tf.originator) ∧
    (tf.to_notification line).1.include_for_live_sync =
      (((extract_rollout_thread_id payload true) <|> tf.thread_id).isSome &&
        rollout_originator_allowed
          ((read_string (jget payload "originator")) <|> tf.originator)) := by
  rw [RolloutTrackedFile.to_notification, hline]
  dsimp only
  have hobj : (Json.obj fields).asObj = some fields := rfl
  rw [hobj]
  dsimp only
  rw [htype]
  dsimp only
  rw [hpayload]
  dsimp only
  rw [if_pos rfl]
  exact ⟨rfl, rfl, rfl, rfl⟩

/-- Witness for C8 at a `session_meta` record carrying a session id and a
"codex" originator: the flag becomes true. -/
theorem session_meta_include_flag_witness :
    ((⟨none, none, false⟩ : RolloutTrackedFile).to_notification
        "\x7b\"type\":\"session_meta\",\"payload\":\x7b\"id\":\"session-1\",\"originator\":\"codex_cli_rs\"\x7d\x7d").1.include_for_live_sync =
      (((extract_rollout_thread_id
            [("id", Json.str "session-1"), ("originator", Json.str "codex_cli_rs")] true) <|>
          (none : Option String)).isSome &&
        rollout_originator_allowed
          ((read_string (jget [("id", Json.str "session-1"),
              ("originator", Json.str "codex_cli_rs")] "originator")) <|>
            (none : Option String))) :=
  (session_meta_include_flag ⟨none, none, false⟩
    "\x7b\"type\":\"session_meta\",\"payload\":\x7b\"id\":\"session-1\",\"originator\":\"codex_cli_rs\"\x7d\x7d"
    [("type", Json.str "session_meta"),
      ("payload", Json.obj [("id", Json.str "session-1"),
        ("originator", Json.str "codex_cli_rs")])]
    [("id", Json.str "session-1"), ("originator", Json.str "codex_cli_rs")]
    (by rfl) rfl rfl).2.2.2

/-! ## Filename and path-segment sanitizers -/

/-- Model of `char::is_ascii_alphanumeric`. -/
def isAsciiAlnumChar (c : Char) : Bool :=
  ('0' ≤ c && c ≤ '9') || ('a' ≤ c && c ≤ 'z') || ('A' ≤ c && c ≤ 'Z')

/-- The characters `sanitize_filename` keeps unchanged. -/
def fileSafeChar (c : Char) : Bool :=
  isAsciiAlnumChar c || c = '.' || c = '-' || c = '_'

/-- The characters `sanitize_path_segment` keeps unchanged. -/
def pathSafeChar (c : Char) : Bool :=
  isAsciiAlnumChar c || c = '-' || c = '_'

/-- Model of `str::split` over a character class, keeping empty
segments. -/
def splitAnyChar (p : Char → Bool) : List Char → List (List Char)
  | [] => [[]]
  | c :: rest =>
    if p c then [] :: splitAnyChar p rest
    else
      match splitAnyChar p rest with
      | [] => [[c]]
      | seg :: segs => (c :: seg) :: segs

/-- Strip one character from the end, repeatedly. -/
def dropTrailingChar (c : Char) (cs : List Char) : List Char :=
  (cs.reverse.dropWhile (· == c)).reverse

/-- Model of `str::trim_matches` with a char pattern. -/
def trimMatchesChar (c : Char) (cs : List Char) : List Char :=
  dropTrailingChar c (cs.dropWhile (· == c))

/-- UTF-8 byte length of a character list (`str::len`). -/
def utf8Len (cs : List Char) : Nat :=
  (cs.map Char.utf8Size).sum

/-- Model of `String::truncate(n)` as the longest prefix of at most `n`
UTF-8 bytes.  At both call sites the string is all-ASCII, where this is
exactly Rust's byte truncation (which would panic off a char boundary). -/
def truncateBytes (n : Nat) : List Char → List Char
  | [] => []
  | c :: rest => if c.utf8Size ≤ n then c :: truncateBytes (n - c.utf8Size) rest else []

/-- Model of `sanitize_filename` (main.rs): last non-blank path segment
(default "attachment"), unsafe characters replaced by underscores, dots
trimmed from both ends, empty results replaced by "attachment", and a
96-byte cap. -/
def sanitize_filename (value : String) : String :=
  let segments := splitAnyChar (fun c => c = '/' || c = '\\') value.data
  let kept := segments.filter (fun segment => ¬ (rustTrimList segment).isEmpty)
  let basename := kept.getLast?.getD "attachment".data
  let cleaned := basename.map (fun c => if fileSafeChar c then c else '_')
  let cleaned := trimMatchesChar '.' cleaned
  if cleaned.isEmpty then "attachment"
  else String.mk (truncateBytes 96 cleaned)

/-- Model of `sanitize_path_segment` (main.rs): trim whitespace, replace
unsafe characters by underscores, trim underscores from both ends, cap at
64 bytes. -/
def sanitize_path_segment (value : String) : String :=
  let cleaned := (rustTrimList value.data).map (fun c => if pathSafeChar c then c else '_')
  let cleaned := trimMatchesChar '_' cleaned
  String.mk (truncateBytes 64 cleaned)

theorem alnum_bounds (c : Char) (h : isAsciiAlnumChar c = true) :
    ('0' ≤ c ∧ c ≤ '9') ∨ ('a' ≤ c ∧ c ≤ 'z') ∨ ('A' ≤ c ∧ c ≤ 'Z') := by
  simpa [isAsciiAlnumChar, Bool.or_eq_true, Bool.and_eq_true,
    decide_eq_true_eq, or_assoc] using h

theorem alnum_not_ws (c : Char) (h : isAsciiAlnumChar c = true) :
    rustIsWhitespace c = false := by
  cases hws : rustIsWhitespace c with
  | false => rfl
  | true =>
    exfalso
    simp only [rustIsWhitespace, Bool.or_eq_true, decide_eq_true_eq,
      Bool.and_eq_true, or_assoc] at hws
    rcases alnum_bounds c h with ⟨h1, h2⟩ | ⟨h1, h2⟩ | ⟨h1, h2⟩ <;>
      rcases hws with h' | h' | h' | h' | h' | h' | h' | h' | h' | ⟨ha, hb⟩ |
        h' | h' | h' | h' | h' <;>
      first
        | (subst h'; revert h1 h2; decide)
        | (exact absurd (le_trans ha h2) (by decide))

theorem alnum_not_slash (c : Char) (h : isAsciiAlnumChar c = true) :
    (c = '/' || c = '\\') = false := by
  rcases alnum_bounds c h with ⟨h1, h2⟩ | ⟨h1, h2⟩ | ⟨h1, h2⟩ <;>
  · simp only [Bool.or_eq_false_iff, decide_eq_false_iff_not]
    constructor <;> (intro he; subst he; revert h1 h2; decide)

theorem fileSafe_cases (c : Char) (h : fileSafeChar c = true) :
    isAsciiAlnumChar c = true ∨ c = '.' ∨ c = '-' ∨ c = '_' := by
  simpa [fileSafeChar, Bool.or_eq_true, decide_eq_true_eq, or_assoc] using h

theorem pathSafe_cases (c : Char) (h : pathSafeChar c = true) :
    isAsciiAlnumChar c = true ∨ c = '-' ∨ c = '_' := by
  simpa [pathSafeChar, Bool.or_eq_true, decide_eq_true_eq, or_assoc] using h

theorem fileSafe_not_ws (c : Char) (h : fileSafeChar c = true) :
    rustIsWhitespace c = false := by
  rcases fileSafe_cases c h with halnum | rfl | rfl | rfl
  · exact alnum_not_ws c halnum
  all_goals decide

theorem fileSafe_not_slash (c : Char) (h : fileSafeChar c = true) :
    (c = '/' || c = '\\') = false := by
  rcases fileSafe_cases c h with halnum | rfl | rfl | rfl
  · exact alnum_not_slash c halnum
  all_goals decide

theorem pathSafe_not_ws (c : Char) (h : pathSafeChar c = true) :
    rustIsWhitespace c = false := by
  rcases pathSafe_cases c h with halnum | rfl | rfl
  · exact alnum_not_ws c halnum
  all_goals decide

theorem dropWhile_eq_self_all {α} (p : α → Bool) (l : List α)
    (h : ∀ x ∈ l, p x = false) : l.dropWhile p = l := by
  cases l with
  | nil => rfl
  | cons a rest => simp [List.dropWhile_cons, h a (List.mem_cons_self a rest)]

theorem rustTrimList_eq_self (l : List Char)
    (h : ∀ c ∈ l, rustIsWhitespace c = false) : rustTrimList l = l := by
  unfold rustTrimList
  rw [dropWhile_eq_self_all _ _ h, dropWhile_eq_self_all, List.reverse_reverse]
  intro c hc
  exact h c (by simpa using hc)

theorem splitAnyChar_eq_self (p : Char → Bool) (l : List Char)
    (h : ∀ c ∈ l, p c = false) : splitAnyChar p l = [l] := by
  induction l with
  | nil => rfl
  | cons a rest ih =>
    rw [splitAnyChar, if_neg (by simp [h a (List.mem_cons_self a rest)]),
      ih (fun c hc => h c (List.mem_cons_of_mem a hc))]

theorem map_id_of_kept {α} (f : α → α) (l : List α) (h : ∀ c ∈ l, f c = c) :
    l.map f = l := by
  induction l with
  | nil => rfl
  | cons a rest ih =>
    rw [List.map_cons, h a (List.mem_cons_self a rest),
      ih (fun c hc => h c (List.mem_cons_of_mem a hc))]

theorem dropWhile_beq_eq_self (c : Char) (l : List Char) (h : l.head? ≠ some c) :
    l.dropWhile (· == c) = l := by
  cases l with
  | nil => rfl
  | cons a rest =>
    have ha : (a == c) = false := by
      simp only [List.head?_cons, ne_eq, Option.some.injEq] at h
      simpa using h
    simp [List.dropWhile_cons, ha]

theorem trimMatchesChar_eq_self (c : Char) (l : List Char)
    (hh : l.head? ≠ some c) (hl : l.getLast? ≠ some c) : trimMatchesChar c l = l := by
  unfold trimMatchesChar dropTrailingChar
  rw [dropWhile_beq_eq_self c l hh, dropWhile_beq_eq_self, List.reverse_reverse]
  rw [List.head?_reverse]
  exact hl

theorem mem_of_mem_dropWhile {α} (p : α → Bool) (l : List α) (x : α)
    (hx : x ∈ l.dropWhile p) : x ∈ l :=
  (List.dropWhile_sublist p).mem hx

theorem mem_of_mem_trimMatchesChar (c : Char) (l : List Char) (x : Char)
    (hx : x ∈ trimMatchesChar c l) : x ∈ l := by
  unfold trimMatchesChar dropTrailingChar at hx
  rw [List.mem_reverse] at hx
  have hx2 := mem_of_mem_dropWhile _ _ _ hx
  rw [List.mem_reverse] at hx2
  exact mem_of_mem_dropWhile _ _ _ hx2

theorem dropWhile_head_ne (c : Char) (l : List Char) :
    (l.dropWhile (· == c)).head? ≠ some c := by
  induction l with
  | nil => simp
  | cons a rest ih =>
    rw [List.dropWhile_cons]
    split
    · exact ih
    · next ha =>
      simp only [List.head?_cons, ne_eq, Option.some.injEq]
      simpa using ha

theorem trimMatchesChar_head_ne (c : Char) (l : List Char) :
    (trimMatchesChar c l).head? ≠ some c := by
  unfold trimMatchesChar dropTrailingChar
  set u := l.dropWhile (· == c) with hu
  have hhead := dropWhile_head_ne c l
  rw [← hu] at hhead
  have hpre : List.IsPrefix ((u.reverse.dropWhile (· == c)).reverse) u := by
    have hsub : ∃ t, u.reverse = t ++ u.reverse.dropWhile (· == c) :=
      ⟨u.reverse.takeWhile (· == c), (List.takeWhile_append_dropWhile _ _).symm⟩
    obtain ⟨t, ht⟩ := hsub
    refine ⟨t.reverse, ?_⟩
    have := congrArg List.reverse ht
    simpa using this.symm
  cases hcase : (u.reverse.dropWhile (· == c)).reverse with
  | nil => simp
  | cons a rest =>
    obtain ⟨t, ht⟩ := hpre
    rw [hcase] at ht
    rw [← ht] at hhead
    simpa using hhead

theorem trimMatchesChar_getLast_ne (c : Char) (l : List Char) :
    (trimMatchesChar c l).getLast? ≠ some c := by
  unfold trimMatchesChar dropTrailingChar
  rw [← List.head?_reverse, List.reverse_reverse]
  exact dropWhile_head_ne c _

theorem truncateBytes_of_le (l : List Char) :
    ∀ n, utf8Len l ≤ n → truncateBytes n l = l := by
  induction l with
  | nil => intro n _; rfl
  | cons c rest ih =>
    intro n hn
    have hlen : c.utf8Size + utf8Len rest ≤ n := by
      simpa [utf8Len] using hn
    rw [truncateBytes, if_pos (by omega), ih (n - c.utf8Size) (by omega)]

theorem utf8Len_truncateBytes_le (l : List Char) :
    ∀ n, utf8Len (truncateBytes n l) ≤ n := by
  induction l with
  | nil => intro n; simp [truncateBytes, utf8Len]
  | cons c rest ih =>
    intro n
    rw [truncateBytes]
    split
    · next hc =>
      have := ih (n - c.utf8Size)
      simp only [utf8Len, List.map_cons, List.sum_cons] at *
      omega
    · simp [utf8Len]

theorem mem_of_mem_truncateBytes (x : Char) (l : List Char) :
    ∀ n, x ∈ truncateBytes n l → x ∈ l := by
  induction l with
  | nil => intro n hx; simp [truncateBytes] at hx
  | cons c rest ih =>
    intro n hx
    rw [truncateBytes] at hx
    split at hx
    · rcases List.mem_cons.mp hx with rfl | hx2
      · exact List.mem_cons_self _ _
      · exact List.mem_cons_of_mem _ (ih _ hx2)
    · simp at hx

theorem truncateBytes_head_of_fit (n : Nat) (c : Char) (rest : List Char)
    (h : c.utf8Size ≤ n) :
    truncateBytes n (c :: rest) = c :: truncateBytes (n - c.utf8Size) rest := by
  rw [truncateBytes, if_pos h]

theorem map_safe_of_keep (keep : Char → Bool) (hk : keep '_' = true) (l : List Char) :
    ∀ d ∈ l.map (fun c => if keep c then c else '_'), keep d = true := by
  intro d hd
  obtain ⟨c, _, rfl⟩ := List.mem_map.mp hd
  by_cases hc : keep c = true
  · simp [hc]
  · simp only [Bool.not_eq_true] at hc
    simp [hc, hk]

theorem sanitize_filename_spec (s : String) :
    (∀ c ∈ (sanitize_filename s).data, fileSafeChar c = true) ∧
    (sanitize_filename s).data.head? ≠ some '.' ∧
    (sanitize_filename s).data ≠ [] ∧
    utf8Len (sanitize_filename s).data ≤ 96 := by
  unfold sanitize_filename
  dsimp only
  set basename := (((splitAnyChar (fun c => c = '/' || c = '\\') s.data).filter
    (fun segment => ¬ (rustTrimList segment).isEmpty)).getLast?).getD "attachment".data
    with hb
  set cleaned :=
    trimMatchesChar '.' (basename.map (fun c => if fileSafeChar c then c else '_'))
    with hc
  by_cases hnil : cleaned.isEmpty
  · rw [if_pos hnil]
    refine ⟨?_, ?_, ?_, ?_⟩ <;> decide
  · rw [if_neg hnil]
    have hsafeC : ∀ d ∈ cleaned, fileSafeChar d = true := fun d hd =>
      map_safe_of_keep fileSafeChar (by decide) basename d
        (mem_of_mem_trimMatchesChar _ _ _ (hc ▸ hd))
    refine ⟨?_, ?_, ?_, ?_⟩
    · intro ch hch
      exact hsafeC ch (mem_of_mem_truncateBytes ch cleaned 96 hch)
    · cases hcl : cleaned with
      | nil => exact absurd (by simp [hcl]) hnil
      | cons a t =>
        have hhead := trimMatchesChar_head_ne '.'
          (basename.map (fun c => if fileSafeChar c then c else '_'))
        rw [← hc, hcl] at hhead
        show (truncateBytes 96 (a :: t)).head? ≠ some '.'
        rw [truncateBytes_head_of_fit 96 a t
          (le_trans (Char.utf8Size_le_four a) (by norm_num))]
        simpa using hhead
    · cases hcl : cleaned with
      | nil => exact absurd (by simp [hcl]) hnil
      | cons a t =>
        show truncateBytes 96 (a :: t) ≠ []
        rw [truncateBytes_head_of_fit 96 a t
          (le_trans (Char.utf8Size_le_four a) (by norm_num))]
        simp
    · exact utf8Len_truncateBytes_le cleaned 96

theorem sanitize_path_segment_spec (s : String) :
    (∀ c ∈ (sanitize_path_segment s).data, pathSafeChar c = true) ∧
    (sanitize_path_segment s).data.head? ≠ some '_' ∧
    utf8Len (sanitize_path_segment s).data ≤ 64 := by
  unfold sanitize_path_segment
  dsimp only
  set cleaned := trimMatchesChar '_'
    ((rustTrimList s.data).map (fun c => if pathSafeChar c then c else '_'))
    with hc
  refine ⟨?_, ?_, ?_⟩
  · intro ch hch
    exact map_safe_of_keep pathSafeChar (by decide) (rustTrimList s.data) ch
      (mem_of_mem_trimMatchesChar _ _ _
        (hc ▸ mem_of_mem_truncateBytes ch cleaned 64 hch))
  · cases hcl : cleaned with
    | nil => show (truncateBytes 64 ([] : List Char)).head? ≠ some '_'; simp [truncateBytes]
    | cons a t =>
      have hhead := trimMatchesChar_head_ne '_'
        ((rustTrimList s.data).map (fun c => if pathSafeChar c then c else '_'))
      rw [← hc, hcl] at hhead
      show (truncateBytes 64 (a :: t)).head? ≠ some '_'
      rw [truncateBytes_head_of_fit 64 a t
        (le_trans (Char.utf8Size_le_four a) (by norm_num))]
      simpa using hhead
  · exact utf8Len_truncateBytes_le cleaned 64

theorem sanitize_filename_fixed (r : String)
    (hsafe : ∀ c ∈ r.data, fileSafeChar c = true)
    (hhead : r.data.head? ≠ some '.')
    (hne : r.data ≠ [])
    (hlast : r.data.getLast? ≠ some '.')
    (hlen : utf8Len r.data ≤ 96) :
    sanitize_filename r = r := by
  unfold sanitize_filename
  dsimp only
  rw [splitAnyChar_eq_self _ _ (fun c hc => fileSafe_not_slash c (hsafe c hc))]
  have htrim : rustTrimList r.data = r.data :=
    rustTrimList_eq_self _ (fun c hc => fileSafe_not_ws c (hsafe c hc))
  have hfilter : ([r.data].filter (fun segment => ¬ (rustTrimList segment).isEmpty)) =
      [r.data] := by
    simp [List.filter_cons, htrim, hne]
  rw [hfilter]
  simp only [List.getLast?_singleton, Option.getD_some]
  rw [map_id_of_kept _ _ (fun c hc => by simp [hsafe c hc])]
  rw [trimMatchesChar_eq_self '.' r.data hhead hlast]
  rw [if_neg (by simpa [List.isEmpty_iff] using hne)]
  rw [truncateBytes_of_le r.data 96 hlen]

theorem sanitize_path_segment_fixed (r : String)
    (hsafe : ∀ c ∈ r.data, pathSafeChar c = true)
    (hhead : r.data.head? ≠ some '_')
    (hlast : r.data.getLast? ≠ some '_')
    (hlen : utf8Len r.data ≤ 64) :
    sanitize_path_segment r = r := by
  unfold sanitize_path_segment
  dsimp only
  rw [rustTrimList_eq_self _ (fun c hc => pathSafe_not_ws c (hsafe c hc))]
  rw [map_id_of_kept _ _ (fun c hc => by simp [hsafe c hc])]
  rw [trimMatchesChar_eq_self '_' r.data hhead hlast]
  rw [truncateBytes_of_le r.data 64 hlen]

/-- A 106-character name whose sanitized form is truncated to exactly 96
bytes ending in a dot. -/
def longDottedName : String :=
  String.mk (List.replicate 95 'a' ++ '.' :: List.replicate 10 'a')

/-- A 74-character segment whose sanitized form is truncated to exactly
64 bytes ending in an underscore. -/
def longUnderscoredSegment : String :=
  String.mk (List.replicate 63 'a' ++ '_' :: List.replicate 10 'a')

/-- C9 counterexample: neither sanitizer is idempotent on every input.
Both trim their edge character before truncating, so truncation can
expose a trailing '.' (filename) or '_' (path segment) that a second
application then strips. -/
theorem sanitize_idempotence_counterexample :
    ¬ (sanitize_filename (sanitize_filename longDottedName) =
        sanitize_filename longDottedName) ∧
    ¬ (sanitize_path_segment (sanitize_path_segment longUnderscoredSegment) =
        sanitize_path_segment longUnderscoredSegment) := by
  constructor <;> decide

/-- C9 amended: `sanitize_filename` is idempotent on every input whose
sanitized result does not end in '.', and `sanitize_path_segment` on
every input whose result does not end in '_' (such trailing characters
can only be exposed by the 96- or 64-byte truncation). -/
theorem sanitize_idempotent_unless_truncation
    (s : String) :
    ((sanitize_filename s).data.getLast? ≠ some '.' →
      sanitize_filename (sanitize_filename s) = sanitize_filename s) ∧
    ((sanitize_path_segment s).data.getLast? ≠ some '_' →
      sanitize_path_segment (sanitize_path_segment s) = sanitize_path_segment s) := by
  obtain ⟨h1, h2, h3, h4⟩ := sanitize_filename_spec s
  obtain ⟨g1, g2, g3⟩ := sanitize_path_segment_spec s
  exact ⟨fun hlast => sanitize_filename_fixed _ h1 h2 h3 hlast h4,
    fun hlast => sanitize_path_segment_fixed _ g1 g2 hlast g3⟩

/-- Witness for the amended C9 at the repository's own test inputs. -/
theorem sanitize_idempotent_unless_truncation_witness :
    ((sanitize_filename "../weird name?.txt").data.getLast? ≠ some '.' ∧
      sanitize_filename (sanitize_filename "../weird name?.txt") =
        sanitize_filename "../weird name?.txt") ∧
    ((sanitize_path_segment " ../Thread 01/.. ").data.getLast? ≠ some '_' ∧
      sanitize_path_segment (sanitize_path_segment " ../Thread 01/.. ") =
        sanitize_path_segment " ../Thread 01/.. ") :=
  ⟨⟨by decide, (sanitize_idempotent_unless_truncation "../weird name?.txt").1 (by decide)⟩,
    ⟨by decide, (sanitize_idempotent_unless_truncation " ../Thread 01/.. ").2 (by decide)⟩⟩

end Bridge
